import Mathlib

/-!
Verification of the Companies House ownership-tree backend (`src/main.py`).

The core of the program is pure apart from the HTTP calls, which we model by
an environment: a finite association list from company numbers to the outcome
of the persons-with-significant-control (PSC) endpoint.  Python dictionaries
returned by the API are modelled by the structured record `RawPSC`, whose
optional fields reproduce `dict.get` semantics (`none` = key absent / null).
-/

namespace PSCBack

/-- `identification` block of a raw PSC record
(`registration_number`, `country_registered`). -/
structure Identification where
  registration_number : Option String
  country_registered : Option String
deriving Repr, DecidableEq

/-- `name_elements` block of a raw PSC record (`forename`, `surname`). -/
structure NameElements where
  forename : Option String
  surname : Option String
deriving Repr, DecidableEq

/-- A raw controlling-party record as returned by the PSC endpoint.
Fields mirror the keys read by `main.py`; `none` models an absent key. -/
structure RawPSC where
  kind : Option String
  name : Option String
  name_elements : Option NameElements
  country_of_residence : Option String
  natures_of_control : Option (List String)
  ceased_on : Option String
  identification : Option Identification
  links_self : Option String
deriving Repr, DecidableEq

/-- Does the character list start with the given needle? -/
def startsWithChars : List Char → List Char → Bool
  | _, [] => true
  | [], _ :: _ => false
  | a :: hs, b :: ns => a == b && startsWithChars hs ns

/-- Does the character list contain the needle as a contiguous run? -/
def containsChars : List Char → List Char → Bool
  | [], needle => needle.isEmpty
  | a :: rest, needle => startsWithChars (a :: rest) needle || containsChars rest needle

/-- Python substring test `needle in hay` (contiguous substring). -/
def strContains (hay needle : String) : Bool :=
  containsChars hay.data needle.data

/-- Python `str.lower()`, character by character (ASCII, as Lean's
`Char.toLower`). -/
def lowerStr (s : String) : String :=
  ⟨s.data.map Char.toLower⟩

/-- Python `str.strip()`: remove leading and trailing whitespace. -/
def pyStrip (s : String) : String :=
  ⟨((s.data.dropWhile Char.isWhitespace).reverse.dropWhile Char.isWhitespace).reverse⟩

/-- Python `a or b` for two optional strings: the empty string and `None`
are falsy, so `a or b` yields `b` unless `a` is a non-empty string. -/
def pyOr (a b : Option String) : Option String :=
  match a with
  | some s => if s = "" then b else some s
  | none => b

/-- Python truthiness filter on an optional string: `if x:` succeeds exactly
when `x` is present and non-empty. -/
def pyTruthy (a : Option String) : Option String :=
  match a with
  | some s => if s = "" then none else some s
  | none => a

/-- The lower-cased country names accepted as United Kingdom
(`main.py` line 127). -/
def ukCountries : List String :=
  ["england", "wales", "scotland", "northern ireland", "united kingdom", "uk"]

/-- `determine_entity_type` (`main.py` lines 118-132): classify a raw PSC
record as `"individual"`, `"uk_company"` or `"non_uk_company"`. -/
def determine_entity_type (psc : RawPSC) : String :=
  let kind := psc.kind.getD ""
  if strContains kind "individual" then "individual"
  else if strContains kind "corporate-entity" || strContains kind "legal-person" then
    let country := pyOr psc.country_of_residence
      ((psc.identification.getD ⟨none, none⟩).country_registered)
    match country with
    | some c => if c ≠ "" ∧ lowerStr c ∈ ukCountries then "uk_company" else "non_uk_company"
    | none => "non_uk_company"
  else "individual"

/-- A node of the ownership tree (`PSCNode` pydantic model, `main.py`
lines 31-40).  Fields, in order: `id`, `name`, `type`, `company_number`,
`country_of_residence`, `nature_of_control`, `children`, `is_active`,
`error`. -/
inductive PSCNode where
  | mk (id : String) (name : String) (type : String)
       (company_number : Option String) (country_of_residence : Option String)
       (nature_of_control : List String) (children : List PSCNode)
       (is_active : Bool) (error : Option String)

def PSCNode.id : PSCNode → String
  | .mk v _ _ _ _ _ _ _ _ => v

def PSCNode.name : PSCNode → String
  | .mk _ v _ _ _ _ _ _ _ => v

def PSCNode.type : PSCNode → String
  | .mk _ _ v _ _ _ _ _ _ => v

def PSCNode.company_number : PSCNode → Option String
  | .mk _ _ _ v _ _ _ _ _ => v

def PSCNode.country_of_residence : PSCNode → Option String
  | .mk _ _ _ _ v _ _ _ _ => v

def PSCNode.nature_of_control : PSCNode → List String
  | .mk _ _ _ _ _ v _ _ _ => v

def PSCNode.children : PSCNode → List PSCNode
  | .mk _ _ _ _ _ _ v _ _ => v

def PSCNode.is_active : PSCNode → Bool
  | .mk _ _ _ _ _ _ _ v _ => v

def PSCNode.error : PSCNode → Option String
  | .mk _ _ _ _ _ _ _ _ v => v

/-- Outcome of one HTTP request to the PSC endpoint for one company:
a status-200 body with its `items`, a 404, another HTTP status, or a raised
transport exception. -/
inductive FetchOutcome where
  | success (items : List RawPSC)
  | notFound
  | httpError (code : Nat)
  | transportError (msg : String)
deriving Repr, DecidableEq

/-- The provider, as a finite association list from company number to the
outcome of fetching that company's PSC list. -/
def Env := List (String × FetchOutcome)

/-- Look up a company in the provider; a company absent from the map behaves
like a 404 (the real API returns 404 for unknown companies). -/
def envFetch : Env → String → FetchOutcome
  | [], _ => .notFound
  | (k, o) :: rest, c => if c = k then o else envFetch rest c

/-- `get_company_pscs` (`main.py` lines 95-116): returns the items on
status 200 and the empty list on 404, any other status, or a raised
exception — transport failures are caught inside this function and
swallowed (logged only), never re-raised to the caller. -/
def get_company_pscs (env : Env) (company_number : String) : List RawPSC :=
  match envFetch env company_number with
  | .success items => items
  | .notFound => []
  | .httpError _ => []
  | .transportError _ => []

/-- Display name of a raw PSC record (`main.py` line 166):
`psc.get("name") or forename + " " + surname` (Python `or`, so an empty
direct name also falls back to the name elements). -/
def pscDisplayName (psc : RawPSC) : String :=
  let elems := psc.name_elements.getD ⟨none, none⟩
  match pyOr psc.name (some (elems.forename.getD "" ++ " " ++ elems.surname.getD "")) with
  | some s => s
  | none => ""

/-- Processing of one non-ceased raw record in the loop of
`build_ownership_tree` (`main.py` lines 166-199).  `bld` is the recursive
call (already at the child's fuel), `visited` is the branch's visited list
after the current company was added (the Python `visited.copy()` passed to
the recursive call), `idx` is `len(root_node.children)` at this point, and
`errors` is the current error sink.  Returns `none` only on fuel
exhaustion inside the recursive call. -/
def processOne
    (bld : String → String → List String → List String →
      Option (PSCNode × List String))
    (visited : List String) (errors : List String) (idx : Nat)
    (psc : RawPSC) : Option (PSCNode × List String) :=
  let psc_name := pyStrip (pscDisplayName psc)
  let psc_type := determine_entity_type psc
  let nid := psc.links_self.getD ("psc_" ++ toString idx)
  if psc_type = "uk_company" then
    match pyTruthy ((psc.identification.getD ⟨none, none⟩).registration_number) with
    | some reg =>
      match bld reg psc_name visited errors with
      | some (child_tree, errors') =>
        some (.mk nid psc_name psc_type (some reg) psc.country_of_residence
          (psc.natures_of_control.getD []) child_tree.children true none, errors')
      | none => none
    | none =>
      some (.mk nid psc_name psc_type none psc.country_of_residence
        (psc.natures_of_control.getD []) [] true none, errors)
  else
    some (.mk nid psc_name psc_type none psc.country_of_residence
      (psc.natures_of_control.getD []) [] true none, errors)

/-- The `for psc in pscs` loop of `build_ownership_tree` (`main.py`
lines 161-201): records with a present `ceased_on` key are skipped;
every other record is appended (in provider order) to the accumulated
children list `acc`. -/
def processPscs
    (bld : String → String → List String → List String →
      Option (PSCNode × List String))
    (visited : List String) :
    List RawPSC → List PSCNode → List String →
      Option (List PSCNode × List String)
  | [], acc, errors => some (acc, errors)
  | psc :: rest, acc, errors =>
    if psc.ceased_on.isSome then processPscs bld visited rest acc errors
    else
      match processOne bld visited errors acc.length psc with
      | some (node, errors') => processPscs bld visited rest (acc ++ [node]) errors'
      | none => none

/-- `build_ownership_tree` (`main.py` lines 134-208), with an explicit fuel
for the (in Python, unbounded) recursion: `none` means the fuel ran out
before the recursion bottomed out.  `buildFuel_total` below shows any fuel
larger than the number of provider companies not yet visited suffices, so
the fuel is an artefact of the embedding, not of the program.  The visited
set is a list used only through membership; consing reproduces
`visited.add` on the branch-local copy. -/
def buildFuel (env : Env) (fuel : Nat) :
    String → String → List String → List String →
      Option (PSCNode × List String) :=
  Nat.rec (motive := fun _ => String → String → List String → List String →
      Option (PSCNode × List String))
    (fun _ _ _ _ => none)
    (fun _ prev company_number company_name visited errors =>
      if company_number ∈ visited then
        some (.mk company_number (company_name ++ " (circular reference)")
          "uk_company" (some company_number) none [] [] true
          (some "Circular reference detected"), errors)
      else
        match processPscs prev (company_number :: visited)
            (get_company_pscs env company_number) [] errors with
        | some (childs, errors') =>
          some (.mk company_number company_name "uk_company" (some company_number)
            none [] childs true none, errors')
        | none => none)
    fuel

lemma buildFuel_zero (env : Env) (c n : String) (v e : List String) :
    buildFuel env 0 c n v e = none := rfl

lemma buildFuel_succ (env : Env) (fuel : Nat) (c n : String) (v e : List String) :
    buildFuel env (fuel + 1) c n v e =
      (if c ∈ v then
        some (.mk c (n ++ " (circular reference)") "uk_company" (some c) none []
          [] true (some "Circular reference detected"), e)
      else
        match processPscs (buildFuel env fuel) (c :: v)
            (get_company_pscs env c) [] e with
        | some (childs, errors') =>
          some (.mk c n "uk_company" (some c) none [] childs true none, errors')
        | none => none) := rfl

/-- Number of provider companies not yet on the visited list: an upper
bound on how many further distinct companies a branch can enter. -/
def unvisitedCount (env : Env) (visited : List String) : Nat :=
  ((env.map Prod.fst).toFinset.filter (fun k => ¬ k ∈ visited)).card

/-- A company absent from the provider map behaves like a 404. -/
lemma envFetch_of_not_mem (env : Env) (c : String) (h : ¬ c ∈ env.map Prod.fst) :
    envFetch env c = .notFound := by
  induction env with
  | nil => rfl
  | cons p rest ih =>
    obtain ⟨k, o⟩ := p
    simp only [List.map_cons, List.mem_cons] at h
    push_neg at h
    simpa [envFetch, h.1] using ih h.2

/-- Entering an unvisited provider company strictly shrinks the set of
provider companies a branch can still enter. -/
lemma unvisitedCount_cons_lt (env : Env) (c : String) (v : List String)
    (hk : c ∈ env.map Prod.fst) (hv : ¬ c ∈ v) :
    unvisitedCount env (c :: v) < unvisitedCount env v := by
  classical
  unfold unvisitedCount
  have hmem : c ∈ (env.map Prod.fst).toFinset.filter (fun k => ¬ k ∈ v) := by
    simp [List.mem_toFinset, hk, hv]
  have hset : (env.map Prod.fst).toFinset.filter (fun k => ¬ k ∈ (c :: v)) =
      ((env.map Prod.fst).toFinset.filter (fun k => ¬ k ∈ v)).erase c := by
    ext k
    simp only [Finset.mem_filter, Finset.mem_erase, List.mem_cons]
    tauto
  rw [hset]
  exact Finset.card_erase_lt_of_mem hmem

/-- `processOne` succeeds whenever the recursive builder it is handed
succeeds on every input. -/
lemma processOne_total
    (bld : String → String → List String → List String →
      Option (PSCNode × List String))
    (visited errors : List String) (idx : Nat) (psc : RawPSC)
    (hb : ∀ r n e', (bld r n visited e').isSome) :
    (processOne bld visited errors idx psc).isSome := by
  by_cases ht : determine_entity_type psc = "uk_company"
  · cases hr : pyTruthy ((psc.identification.getD ⟨none, none⟩).registration_number) with
    | none => simp [processOne, ht, hr]
    | some reg =>
      obtain ⟨⟨child, errs⟩, hp⟩ :=
        Option.isSome_iff_exists.mp (hb reg (pyStrip (pscDisplayName psc)) errors)
      simp [processOne, ht, hr, hp]
  · simp [processOne, ht]

/-- The PSC loop succeeds whenever the recursive builder it is handed
succeeds on every input. -/
lemma processPscs_total
    (bld : String → String → List String → List String →
      Option (PSCNode × List String))
    (visited : List String) (pscs : List RawPSC) (acc : List PSCNode)
    (errors : List String)
    (hb : ∀ r n e', (bld r n visited e').isSome) :
    (processPscs bld visited pscs acc errors).isSome := by
  induction pscs generalizing acc errors with
  | nil => simp [processPscs]
  | cons psc rest ih =>
    cases hc : psc.ceased_on.isSome with
    | true => simpa [processPscs, hc] using ih acc errors
    | false =>
      obtain ⟨⟨node, errs⟩, hp⟩ :=
        Option.isSome_iff_exists.mp (processOne_total bld visited errors acc.length psc hb)
      simpa [processPscs, hc, hp] using ih (acc ++ [node]) errs

/-- Termination of the tree builder: any fuel exceeding the number of
provider companies not yet on the branch's visited list suffices, because
each nested call either stops at the cycle check or adds a fresh company
to the branch-local visited list, and companies outside the provider map
yield no controlling parties at all. -/
theorem buildFuel_total (env : Env) :
    ∀ fuel c n v e, unvisitedCount env v < fuel →
      (buildFuel env fuel c n v e).isSome := by
  intro fuel
  induction fuel with
  | zero => intro c n v e h; exact absurd h (Nat.not_lt_zero _)
  | succ fuel ih =>
    intro c n v e h
    by_cases hv : c ∈ v
    · simp [buildFuel_succ, hv]
    · by_cases hk : c ∈ env.map Prod.fst
      · have hlt : unvisitedCount env (c :: v) < fuel := by
          have h1 := unvisitedCount_cons_lt env c v hk hv
          omega
        have hb : ∀ r n e', (buildFuel env fuel r n (c :: v) e').isSome :=
          fun r n e' => ih r n (c :: v) e' hlt
        obtain ⟨⟨childs, errs⟩, hps⟩ := Option.isSome_iff_exists.mp
          (processPscs_total (buildFuel env fuel) (c :: v)
            (get_company_pscs env c) [] e hb)
        simp [buildFuel_succ, hv, hps]
      · have hfetch : get_company_pscs env c = [] := by
          simp [get_company_pscs, envFetch_of_not_mem env c hk]
        simp [buildFuel_succ, hv, hfetch, processPscs]

/-- The builder as the program runs it: no fuel bound, justified by
`buildFuel_total`. -/
def build (env : Env) (c n : String) (v e : List String) :
    PSCNode × List String :=
  (buildFuel env (unvisitedCount env v + 1) c n v e).get
    (buildFuel_total env (unvisitedCount env v + 1) c n v e (Nat.lt_succ_self _))

lemma build_eq_buildFuel (env : Env) (c n : String) (v e : List String) :
    buildFuel env (unvisitedCount env v + 1) c n v e =
      some (build env c n v e) := by
  rw [build]
  exact (Option.some_get _).symm

mutual

/-- `count_nodes` (`main.py` lines 210-215). -/
def count_nodes : PSCNode → Nat
  | .mk _ _ _ _ _ _ children _ _ => 1 + countChildren children

def countChildren : List PSCNode → Nat
  | [] => 0
  | c :: rest => count_nodes c + countChildren rest

end

/-- The part of `get_ownership_structure` (`main.py` lines 229-264) that
follows name resolution: build the tree from an empty visited set and an
empty error sink, count its nodes, and return tree, total and errors
(timing omitted: wall-clock time is outside the embedding). -/
def ownership_response (env : Env) (company_number company_name : String) :
    PSCNode × Nat × List String :=
  let r := build env company_number company_name [] []
  (r.1, count_nodes r.1, r.2)

/-- The node reached from `t` by taking, at each step, the child of the
given index; `nodeAt t [] = t`.  Every node of a tree is `nodeAt` of
exactly one index path, so quantifying over paths quantifies over nodes. -/
def nodeAt : PSCNode → List Nat → Option PSCNode
  | t, [] => some t
  | t, i :: p =>
    match t.children.get? i with
    | some c => nodeAt c p
    | none => none

/-- If one record's processing leaves the error sink unchanged whenever the
recursive builder does, so does `processOne`. -/
lemma processOne_errors
    (bld : String → String → List String → List String →
      Option (PSCNode × List String))
    (vis e : List String) (idx : Nat) (psc : RawPSC)
    (node : PSCNode) (e' : List String)
    (hb : ∀ r n e₀ t e₁, bld r n vis e₀ = some (t, e₁) → e₁ = e₀)
    (h : processOne bld vis e idx psc = some (node, e')) : e' = e := by
  by_cases ht : determine_entity_type psc = "uk_company"
  · cases hr : pyTruthy ((psc.identification.getD ⟨none, none⟩).registration_number) with
    | none =>
      simp [processOne, ht, hr] at h
      exact h.2.symm
    | some reg =>
      cases hc : bld reg (pyStrip (pscDisplayName psc)) vis e with
      | none => simp [processOne, ht, hr, hc] at h
      | some pair =>
        obtain ⟨child, e₁⟩ := pair
        simp [processOne, ht, hr, hc] at h
        rw [← h.2]
        exact hb _ _ _ _ _ hc
  · simp [processOne, ht] at h
    exact h.2.symm

/-- The PSC loop leaves the error sink unchanged whenever the recursive
builder does. -/
lemma processPscs_errors
    (bld : String → String → List String → List String →
      Option (PSCNode × List String))
    (vis : List String)
    (hb : ∀ r n e₀ t e₁, bld r n vis e₀ = some (t, e₁) → e₁ = e₀) :
    ∀ pscs acc e l e', processPscs bld vis pscs acc e = some (l, e') → e' = e := by
  intro pscs
  induction pscs with
  | nil =>
    intro acc e l e' h
    simp [processPscs] at h
    exact h.2.symm
  | cons psc rest ih =>
    intro acc e l e' h
    cases hc : psc.ceased_on.isSome with
    | true =>
      rw [processPscs, if_pos hc] at h
      exact ih acc e l e' h
    | false =>
      rw [processPscs, if_neg (by simp [hc])] at h
      cases hp : processOne bld vis e acc.length psc with
      | none => rw [hp] at h; exact absurd h (by simp)
      | some pair =>
        obtain ⟨node, e₁⟩ := pair
        rw [hp] at h
        have h1 := processOne_errors bld vis e acc.length psc node e₁ hb hp
        rw [← h1]
        exact ih (acc ++ [node]) e₁ l e' h

/-- The builder never appends to the error sink: in `main.py` the only
appends sit in `except` blocks, and `get_company_pscs` swallows every
exception before it can reach them. -/
lemma buildFuel_errors (env : Env) :
    ∀ fuel c n v e t e', buildFuel env fuel c n v e = some (t, e') → e' = e := by
  intro fuel
  induction fuel with
  | zero => intro c n v e t e' h; exact absurd h (by simp [buildFuel_zero])
  | succ fuel ih =>
    intro c n v e t e' h
    by_cases hv : c ∈ v
    · rw [buildFuel_succ, if_pos hv] at h
      simp at h
      exact h.2.symm
    · rw [buildFuel_succ, if_neg hv] at h
      cases hp : processPscs (buildFuel env fuel) (c :: v)
          (get_company_pscs env c) [] e with
      | none => rw [hp] at h; exact absurd h (by simp)
      | some pair =>
        obtain ⟨childs, e₁⟩ := pair
        rw [hp] at h
        simp at h
        rw [← h.2]
        exact processPscs_errors (buildFuel env fuel) (c :: v)
          (fun r n e₀ t e₁ hh => ih r n (c :: v) e₀ t e₁ hh) _ _ _ _ _ hp

mutual

/-- `P` holds of every node of the tree. -/
def allNodesB (P : PSCNode → Bool) : PSCNode → Bool
  | .mk i nm ty cn cor noc children ia er =>
    P (.mk i nm ty cn cor noc children ia er) && allNodesListB P children

/-- `P` holds of every node of every tree in the list. -/
def allNodesListB (P : PSCNode → Bool) : List PSCNode → Bool
  | [] => true
  | c :: rest => allNodesB P c && allNodesListB P rest

end

lemma allNodesB_self (P : PSCNode → Bool) (t : PSCNode)
    (h : allNodesB P t = true) : P t = true := by
  cases t
  rw [allNodesB, Bool.and_eq_true] at h
  exact h.1

lemma allNodesB_children (P : PSCNode → Bool) (t : PSCNode)
    (h : allNodesB P t = true) : allNodesListB P t.children = true := by
  cases t
  rw [allNodesB, Bool.and_eq_true] at h
  exact h.2

lemma allNodesListB_append (P : PSCNode → Bool) (a b : List PSCNode) :
    allNodesListB P (a ++ b) = (allNodesListB P a && allNodesListB P b) := by
  induction a with
  | nil => simp [allNodesListB]
  | cons c rest ih => simp [allNodesListB, ih, Bool.and_assoc]

lemma allNodesListB_get (P : PSCNode → Bool) (l : List PSCNode)
    (h : allNodesListB P l = true) :
    ∀ i c, l.get? i = some c → allNodesB P c = true := by
  induction l with
  | nil => intro i c hc; simp [List.get?] at hc
  | cons a rest ih =>
    rw [allNodesListB, Bool.and_eq_true] at h
    intro i c hc
    cases i with
    | zero => simp [List.get?] at hc; rw [← hc]; exact h.1
    | succ i => exact ih h.2 i c hc

/-- A property true of every node of a tree is true at the end of every
index path into the tree. -/
lemma allNodesB_nodeAt (P : PSCNode → Bool) :
    ∀ (path : List Nat) (t : PSCNode), allNodesB P t = true →
      ∀ nd, nodeAt t path = some nd → P nd = true := by
  intro path
  induction path with
  | nil =>
    intro t ht nd h
    simp [nodeAt] at h
    rw [← h]
    exact allNodesB_self P t ht
  | cons i p ih =>
    intro t ht nd h
    rw [nodeAt] at h
    cases hc : t.children.get? i with
    | none => rw [hc] at h; exact absurd h (by simp)
    | some c =>
      rw [hc] at h
      exact ih c (allNodesListB_get P t.children (allNodesB_children P t ht) i c hc) nd h

/-- If `P` accepts the two shapes of node the loop body can create, then
every node of the tree built by `processOne` satisfies `P`, provided the
recursive builder only returns trees all of whose nodes satisfy `P`. -/
lemma processOne_allNodes (P : PSCNode → Bool)
    (hleaf : ∀ i nm ty cor noc,
      P (.mk i nm ty none cor noc [] true none) = true)
    (huk : ∀ i nm reg cor noc childs,
      P (.mk i nm "uk_company" (some reg) cor noc childs true none) = true)
    (bld : String → String → List String → List String →
      Option (PSCNode × List String))
    (vis e : List String) (idx : Nat) (psc : RawPSC)
    (node : PSCNode) (e' : List String)
    (hb : ∀ r n e₀ t e₁, bld r n vis e₀ = some (t, e₁) → allNodesB P t = true)
    (h : processOne bld vis e idx psc = some (node, e')) :
    allNodesB P node = true := by
  by_cases ht : determine_entity_type psc = "uk_company"
  · cases hr : pyTruthy ((psc.identification.getD ⟨none, none⟩).registration_number) with
    | none =>
      simp [processOne, ht, hr] at h
      rw [← h.1, allNodesB]
      simp [allNodesListB, hleaf]
    | some reg =>
      cases hc : bld reg (pyStrip (pscDisplayName psc)) vis e with
      | none => simp [processOne, ht, hr, hc] at h
      | some pair =>
        obtain ⟨child, e₁⟩ := pair
        simp [processOne, ht, hr, hc] at h
        rw [← h.1, allNodesB, Bool.and_eq_true]
        exact ⟨huk _ _ _ _ _ _,
          allNodesB_children P child (hb _ _ _ _ _ hc)⟩
  · simp [processOne, ht] at h
    rw [← h.1, allNodesB]
    simp [allNodesListB, hleaf]

/-- Same statement for the whole loop. -/
lemma processPscs_allNodes (P : PSCNode → Bool)
    (hleaf : ∀ i nm ty cor noc,
      P (.mk i nm ty none cor noc [] true none) = true)
    (huk : ∀ i nm reg cor noc childs,
      P (.mk i nm "uk_company" (some reg) cor noc childs true none) = true)
    (bld : String → String → List String → List String →
      Option (PSCNode × List String))
    (vis : List String)
    (hb : ∀ r n e₀ t e₁, bld r n vis e₀ = some (t, e₁) → allNodesB P t = true) :
    ∀ pscs acc e l e', processPscs bld vis pscs acc e = some (l, e') →
      allNodesListB P acc = true → allNodesListB P l = true := by
  intro pscs
  induction pscs with
  | nil =>
    intro acc e l e' h hacc
    simp [processPscs] at h
    rw [← h.1]
    exact hacc
  | cons psc rest ih =>
    intro acc e l e' h hacc
    cases hcs : psc.ceased_on.isSome with
    | true =>
      rw [processPscs, if_pos hcs] at h
      exact ih acc e l e' h hacc
    | false =>
      rw [processPscs, if_neg (by simp [hcs])] at h
      cases hp : processOne bld vis e acc.length psc with
      | none => rw [hp] at h; exact absurd h (by simp)
      | some pair =>
        obtain ⟨node, e₁⟩ := pair
        rw [hp] at h
        refine ih (acc ++ [node]) e₁ l e' h ?_
        rw [allNodesListB_append, Bool.and_eq_true]
        exact ⟨hacc, by
          simp [allNodesListB,
            processOne_allNodes P hleaf huk bld vis e acc.length psc node e₁ hb hp]⟩

/-- Same statement for the recursive builder itself: any `P` that accepts
the circular-reference stub, the per-company root shape and the two loop
shapes holds of every node of every tree the builder returns. -/
lemma buildFuel_allNodes (P : PSCNode → Bool)
    (hleaf : ∀ i nm ty cor noc,
      P (.mk i nm ty none cor noc [] true none) = true)
    (huk : ∀ i nm reg cor noc childs,
      P (.mk i nm "uk_company" (some reg) cor noc childs true none) = true)
    (hstub : ∀ c n,
      P (.mk c (n ++ " (circular reference)") "uk_company" (some c) none [] []
        true (some "Circular reference detected")) = true)
    (env : Env) :
    ∀ fuel c n v e t e', buildFuel env fuel c n v e = some (t, e') →
      allNodesB P t = true := by
  intro fuel
  induction fuel with
  | zero => intro c n v e t e' h; exact absurd h (by simp [buildFuel_zero])
  | succ fuel ih =>
    intro c n v e t e' h
    by_cases hv : c ∈ v
    · rw [buildFuel_succ, if_pos hv] at h
      simp at h
      rw [← h.1, allNodesB]
      simp [allNodesListB, hstub]
    · rw [buildFuel_succ, if_neg hv] at h
      cases hp : processPscs (buildFuel env fuel) (c :: v)
          (get_company_pscs env c) [] e with
      | none => rw [hp] at h; exact absurd h (by simp)
      | some pair =>
        obtain ⟨childs, e₁⟩ := pair
        rw [hp] at h
        simp at h
        rw [← h.1, allNodesB, Bool.and_eq_true]
        refine ⟨huk _ _ _ _ _ _, ?_⟩
        exact processPscs_allNodes P hleaf huk (buildFuel env fuel) (c :: v)
          (fun r n e₀ t e₁ hh => ih r n (c :: v) e₀ t e₁ hh)
          _ _ _ _ _ hp (by simp [allNodesListB])

/-- The children list built by the loop, expressed record by record: the
node for each kept record is computed from that record alone (plus the
branch's visited list, the sink value and its index). -/
def buildChildren
    (bld : String → String → List String → List String →
      Option (PSCNode × List String))
    (vis e : List String) : Nat → List RawPSC → Option (List PSCNode)
  | _, [] => some []
  | idx, p :: rest =>
    match processOne bld vis e idx p with
    | some (node, _) => (buildChildren bld vis e (idx + 1) rest).map (fun l => node :: l)
    | none => none

/-- The loop is `buildChildren` over the records whose `ceased_on` is
absent, appended to the accumulator, with the error sink returned as it
came in — provided the recursive builder leaves the sink unchanged. -/
lemma processPscs_eq_buildChildren
    (bld : String → String → List String → List String →
      Option (PSCNode × List String))
    (vis : List String)
    (hb : ∀ r n e₀ t e₁, bld r n vis e₀ = some (t, e₁) → e₁ = e₀) :
    ∀ pscs acc e l e', processPscs bld vis pscs acc e = some (l, e') →
      ∃ m, buildChildren bld vis e acc.length
          (pscs.filter (fun p => p.ceased_on = none)) = some m ∧
        l = acc ++ m ∧ e' = e := by
  intro pscs
  induction pscs with
  | nil =>
    intro acc e l e' h
    simp [processPscs] at h
    exact ⟨[], by simp [buildChildren], by simp [h.1.symm], h.2.symm⟩
  | cons psc rest ih =>
    intro acc e l e' h
    cases hcs : psc.ceased_on with
    | some d =>
      rw [processPscs, if_pos (by simp [hcs])] at h
      obtain ⟨m, hm, hl, he⟩ := ih acc e l e' h
      exact ⟨m, by simpa [hcs] using hm, hl, he⟩
    | none =>
      rw [processPscs, if_neg (by simp [hcs])] at h
      cases hp : processOne bld vis e acc.length psc with
      | none => rw [hp] at h; exact absurd h (by simp)
      | some pair =>
        obtain ⟨node, e₁⟩ := pair
        rw [hp] at h
        have he₁ : e₁ = e := processOne_errors bld vis e acc.length psc node e₁ hb hp
        rw [he₁] at h hp
        obtain ⟨m, hm, hl, he⟩ := ih (acc ++ [node]) e l e' h
        refine ⟨node :: m, ?_, by simp [hl], he⟩
        have hlen : (acc ++ [node]).length = acc.length + 1 := by simp
        rw [hlen] at hm
        simp [hcs, buildChildren, hp, hm]

/-- The `k`-th node produced by `buildChildren` is `processOne` of the
`k`-th record. -/
lemma buildChildren_get
    (bld : String → String → List String → List String →
      Option (PSCNode × List String))
    (vis e : List String) :
    ∀ pscs idx m, buildChildren bld vis e idx pscs = some m →
      ∀ k, m.get? k = (pscs.get? k).bind
        (fun p => (processOne bld vis e (idx + k) p).map Prod.fst) := by
  intro pscs
  induction pscs with
  | nil =>
    intro idx m h k
    simp [buildChildren] at h
    subst h
    simp [List.get?]
  | cons p rest ih =>
    intro idx m h k
    rw [buildChildren] at h
    cases hp : processOne bld vis e idx p with
    | none => rw [hp] at h; exact absurd h (by simp)
    | some pair =>
      obtain ⟨node, e₁⟩ := pair
      rw [hp] at h
      cases hr : buildChildren bld vis e (idx + 1) rest with
      | none => rw [hr] at h; exact absurd h (by simp)
      | some m' =>
        rw [hr] at h
        simp at h
        cases k with
        | zero => simp [← h, List.get?, hp]
        | succ k =>
          have := ih (idx + 1) m' hr k
          rw [← h]
          simp only [List.get?]
          rw [this]
          have : idx + 1 + k = idx + (k + 1) := by omega
          rw [this]

/-! ### Concrete fixtures used by scenario theorems, counterexamples and
witnesses. -/

/-- Provider in which the PSC fetch for company "001" raises a transport
error. -/
def env1 : Env := [("001", .transportError "boom")]

/-- A corporate-entity PSC record registered in England, controlling via
registration number `reg`. -/
def recTo (reg nm : String) : RawPSC :=
  ⟨some "corporate-entity-person-with-significant-control", some nm, none, none,
   some ["ownership-of-shares-75-to-100-percent"], none,
   some ⟨some reg, some "England"⟩, some ("link-" ++ reg)⟩

/-- Provider with the ownership cycle: "001" owns "002" owns "001". -/
def env2 : Env :=
  [("001", .success [recTo "002" "B Ltd"]), ("002", .success [recTo "001" "A Ltd"])]

/-- An individual PSC record whose `ceased_on` key is present but holds the
empty string. -/
def recCeasedEmpty : RawPSC :=
  ⟨some "individual-person-with-significant-control", some "Joe", none, none,
   none, some "", none, some "link-joe"⟩

/-- Provider whose only company has exactly the record `recCeasedEmpty`. -/
def env7 : Env := [("001", .success [recCeasedEmpty])]

/-- An individual PSC record with no `name` key and no `name_elements`
key at all. -/
def recNoName : RawPSC :=
  ⟨some "individual-person-with-significant-control", none, none, none,
   none, none, none, some "link-anon"⟩

/-- Provider whose only company has exactly the record `recNoName`. -/
def env9 : Env := [("001", .success [recNoName])]

/-- An individual PSC record (used as a terminal owner). -/
def recInd : RawPSC :=
  ⟨some "individual-person-with-significant-control", some "Ind Guy", none,
   some "England", none, none, none, some "link-ind"⟩

/-- Diamond provider: "R" is owned by "B" and "C", both of which are owned
by "A", which is owned by an individual — "A" is reachable under two
non-overlapping branches. -/
def envD : Env :=
  [("R", .success [recTo "B" "B Ltd", recTo "C" "C Ltd"]),
   ("B", .success [recTo "A" "A Ltd"]),
   ("C", .success [recTo "A" "A Ltd"]),
   ("A", .success [recInd])]

/-- A corporate-entity record whose kind tag is upper-case. -/
def recUpper : RawPSC :=
  ⟨some "CORPORATE-ENTITY", some "U Ltd", none, some "England", none, none,
   none, none⟩

/-- The same record with the kind tag lower-case. -/
def recLower : RawPSC :=
  ⟨some "corporate-entity", some "U Ltd", none, some "England", none, none,
   none, none⟩

/-! ### Claim theorems -/

/-- C1, counterexample.  Spec scenario: the PSC fetch for the root company
"001" raises a transport error; the claim expects the root node's `error`
to be set and the response `errors` list to hold exactly one entry.  In
the code `get_company_pscs` catches the exception itself and returns `[]`,
so the error never reaches `build_ownership_tree`: the root's `error`
stays `None` and `errors` stays empty (`length 0`, not `1`);
`totalNodes == 1` does hold. -/
theorem transport_error_swallowed_cex :
    envFetch env1 "001" = .transportError "boom" ∧
    (ownership_response env1 "001" "Acme").2.2 = [] ∧
    ¬ (ownership_response env1 "001" "Acme").2.2.length = 1 ∧
    (ownership_response env1 "001" "Acme").1.error = none ∧
    (ownership_response env1 "001" "Acme").2.1 = 1 := by
  have herr : (ownership_response env1 "001" "Acme").2.2 = [] := rfl
  refine ⟨rfl, herr, ?_, rfl, rfl⟩
  rw [herr]
  simp

/-- C1, amended.  When the controlling-parties fetch for a company raises a
transport error, `get_company_pscs` swallows the failure and returns the
empty list, so the node built for that company is returned with no
children but with its `error` field unset and nothing appended to the
errors sink; its subtree counts exactly one node. -/
theorem transport_error_swallowed (env : Env) (c n : String) (v e : List String)
    (msg : String) (hf : envFetch env c = .transportError msg) (hv : ¬ c ∈ v) :
    (build env c n v e).1.children = [] ∧
    (build env c n v e).1.error = none ∧
    (build env c n v e).2 = e ∧
    count_nodes (build env c n v e).1 = 1 := by
  have hfe : get_company_pscs env c = [] := by
    simp [get_company_pscs, hf]
  have hb := build_eq_buildFuel env c n v e
  rw [buildFuel_succ, if_neg hv, hfe] at hb
  simp only [processPscs] at hb
  have h2 := (Option.some.inj hb).symm
  refine ⟨?_, ?_, ?_, ?_⟩ <;> rw [h2] <;>
    simp [PSCNode.children, PSCNode.error, count_nodes, countChildren]

/-- Witness for `transport_error_swallowed` at the spec's scenario. -/
theorem transport_error_swallowed_witness :
    (build env1 "001" "Acme" [] []).1.children = [] ∧
    (build env1 "001" "Acme" [] []).1.error = none ∧
    (build env1 "001" "Acme" [] []).2 = [] ∧
    count_nodes (build env1 "001" "Acme" [] []).1 = 1 :=
  transport_error_swallowed env1 "001" "Acme" [] [] "boom" rfl (by simp)

/-- C2, counterexample.  In the cycle scenario "001" owns "002" owns "001"
the claim expects the node for the second occurrence of "001" (index path
`[0, 0]`) to carry `error = "Circular reference detected"`.  In the code the
recursive call does return such a stub, but the caller keeps only
`child_tree.children` (`main.py` line 195), discarding the stub's `error`
and name; the node in the returned tree has `error = None`. -/
theorem cycle_stub_metadata_dropped_cex :
    (nodeAt (ownership_response env2 "001" "Acme").1 [0, 0]).map PSCNode.error =
      some none ∧
    ¬ (nodeAt (ownership_response env2 "001" "Acme").1 [0, 0]).map PSCNode.error =
      some (some "Circular reference detected") := by
  have h1 : (nodeAt (ownership_response env2 "001" "Acme").1 [0, 0]).map PSCNode.error =
      some none := rfl
  exact ⟨h1, by rw [h1]; simp⟩

/-- C2, amended.  In the scenario "001" owns "002" owns "001", `build`
terminates with a three-node tree `001 → 002 → 001`; the node for the
second occurrence of "001" has `type = uk_company`, `companyNumber = "001"`
and zero children, but its `error` field is unset and its name is the raw
record's name (no "(circular reference)" suffix): the circular-reference
stub created by the cycle check is discarded by the caller, which adopts
only the stub's empty children list. -/
theorem cycle_truncation_scenario :
    count_nodes (ownership_response env2 "001" "Acme").1 = 3 ∧
    (nodeAt (ownership_response env2 "001" "Acme").1 [0, 0]).map
        (fun nd => (nd.type, nd.company_number, nd.children.length, nd.error, nd.name)) =
      some ("uk_company", some "001", 0, none, "A Ltd") := by
  constructor
  · rfl
  · rfl

/-- C3.  For every finite provider map, `build` terminates: any fuel
exceeding the number of provider companies not yet on the branch's visited
list is enough for `buildFuel` to return a result, because every recursion
path either stops at the per-branch cycle check or enters a fresh provider
company, and identifiers outside the provider map fetch no controlling
parties. -/
theorem build_terminates (env : Env) (fuel : Nat) (c n : String)
    (v e : List String) (h : unvisitedCount env v < fuel) :
    (buildFuel env fuel c n v e).isSome = true :=
  buildFuel_total env fuel c n v e h

/-- Witness for `build_terminates` on the cyclic provider `env2`. -/
theorem build_terminates_witness :
    unvisitedCount env2 [] < 3 ∧
    (buildFuel env2 3 "001" "Acme" [] []).isSome = true :=
  ⟨by decide, build_terminates env2 3 "001" "Acme" [] [] (by decide)⟩

/-- The subtree the builder produces for one raw record: a function of the
record itself, the branch's own path (visited list), the sink value and the
record's index among its company's kept records — and of nothing else. -/
def childSubtree (env : Env) (fuel : Nat) (path e : List String) (idx : Nat)
    (psc : RawPSC) : Option PSCNode :=
  (processOne (buildFuel env fuel) path e idx psc).map Prod.fst

lemma buildFuel_eq_build_pair (env : Env) (c n : String) (v e : List String) :
    buildFuel env (unvisitedCount env v + 1) c n v e =
      some ((build env c n v e).1, (build env c n v e).2) := by
  rw [build_eq_buildFuel]

/-- C4.  Branch isolation.  First part, in general: for a company `c` not on
the branch's visited list, the `k`-th child subtree of the node built for
`c` is `childSubtree` of the `k`-th non-ceased record alone, with visited
list `c :: v` — only the branch's own ancestors; sibling branches and their
visits do not occur in it.  Second part, on the diamond provider `envD`
("R" owned by "B" and "C", both owned by "A"): the node for "A" under "B"
and the node for "A" under "C" are both fully expanded — one child each and
no circular-reference error — although "A" is visited on both branches. -/
theorem branch_isolation :
    (∀ env c n v e, ¬ c ∈ v → ∀ k,
      (build env c n v e).1.children.get? k =
        (((get_company_pscs env c).filter (fun p => p.ceased_on = none)).get? k).bind
          (childSubtree env (unvisitedCount env v) (c :: v) e k)) ∧
    ((nodeAt (build envD "R" "Root" [] []).1 [0, 0]).map
        (fun nd => (nd.name, nd.error, nd.children.length)) =
        some ("A Ltd", none, 1) ∧
     (nodeAt (build envD "R" "Root" [] []).1 [1, 0]).map
        (fun nd => (nd.name, nd.error, nd.children.length)) =
        some ("A Ltd", none, 1)) := by
  constructor
  · intro env c n v e hv k
    have hb := buildFuel_eq_build_pair env c n v e
    rw [buildFuel_succ, if_neg hv] at hb
    cases hp : processPscs (buildFuel env (unvisitedCount env v)) (c :: v)
        (get_company_pscs env c) [] e with
    | none => rw [hp] at hb; exact absurd hb (by simp)
    | some pair =>
      obtain ⟨childs, e₁⟩ := pair
      rw [hp] at hb
      have herr : ∀ r n e₀ t e₁', buildFuel env (unvisitedCount env v) r n (c :: v) e₀ =
          some (t, e₁') → e₁' = e₀ :=
        fun r n e₀ t e₁' hh =>
          buildFuel_errors env (unvisitedCount env v) r n (c :: v) e₀ t e₁' hh
      obtain ⟨m, hm, hl, _⟩ := processPscs_eq_buildChildren
        (buildFuel env (unvisitedCount env v)) (c :: v) herr
        (get_company_pscs env c) [] e childs e₁ hp
      have hch : (build env c n v e).1.children = childs := by
        have h2 := Option.some.inj hb
        rw [← (congrArg Prod.fst h2)]
        rfl
      rw [hch, hl]
      simp only [List.nil_append, List.length_nil] at hm ⊢
      rw [buildChildren_get (buildFuel env (unvisitedCount env v)) (c :: v) e
        _ 0 m hm k]
      simp [childSubtree]
  · exact ⟨rfl, rfl⟩

/-- Witness for the universally quantified half of `branch_isolation`,
instantiated on the diamond provider at the root. -/
theorem branch_isolation_witness :
    ¬ "R" ∈ ([] : List String) ∧
    (build envD "R" "Root" [] []).1.children.get? 0 =
      (((get_company_pscs envD "R").filter (fun p => p.ceased_on = none)).get? 0).bind
        (childSubtree envD (unvisitedCount envD []) ["R"] [] 0) :=
  ⟨by simp, branch_isolation.1 envD "R" "Root" [] [] (by simp) 0⟩

/-- C5.  `determine_entity_type` implements the spec's classification: a
kind tag containing "individual" classifies as individual; otherwise a tag
containing "corporate-entity" or "legal-person" classifies as uk_company
when the inspected country — `country_of_residence`, falling back to the
identification's registered country when the former is absent or empty —
is present, non-empty and, lower-cased, one of the six UK names, and as
non_uk_company otherwise (including when no country is present); any other
kind tag falls back to individual. -/
theorem classify_cases (psc : RawPSC) :
    (strContains (psc.kind.getD "") "individual" = true →
      determine_entity_type psc = "individual") ∧
    (strContains (psc.kind.getD "") "individual" = false →
      (strContains (psc.kind.getD "") "corporate-entity" = true ∨
        strContains (psc.kind.getD "") "legal-person" = true) →
      ((∃ c, pyOr psc.country_of_residence
            ((psc.identification.getD ⟨none, none⟩).country_registered) = some c ∧
          c ≠ "" ∧ lowerStr c ∈ ukCountries) →
        determine_entity_type psc = "uk_company") ∧
      (¬ (∃ c, pyOr psc.country_of_residence
            ((psc.identification.getD ⟨none, none⟩).country_registered) = some c ∧
          c ≠ "" ∧ lowerStr c ∈ ukCountries) →
        determine_entity_type psc = "non_uk_company")) ∧
    (strContains (psc.kind.getD "") "individual" = false →
      strContains (psc.kind.getD "") "corporate-entity" = false →
      strContains (psc.kind.getD "") "legal-person" = false →
      determine_entity_type psc = "individual") := by
  refine ⟨?_, ?_, ?_⟩
  · intro h
    simp [determine_entity_type, h]
  · intro h1 h2
    have hor : (strContains (psc.kind.getD "") "corporate-entity" ||
        strContains (psc.kind.getD "") "legal-person") = true := by
      rcases h2 with h | h <;> simp [h]
    constructor
    · rintro ⟨c, hc, hne, hmem⟩
      simp [determine_entity_type, h1, hor, hc, hne, hmem]
    · intro hn
      cases hc : pyOr psc.country_of_residence
          ((psc.identification.getD ⟨none, none⟩).country_registered) with
      | none => simp [determine_entity_type, h1, hor, hc]
      | some c =>
        have hcc : ¬ (c ≠ "" ∧ lowerStr c ∈ ukCountries) :=
          fun hh => hn ⟨c, hc, hh.1, hh.2⟩
        simp [determine_entity_type, h1, hor, hc, hcc]
  · intro h1 h2 h3
    simp [determine_entity_type, h1, h2, h3]

/-- Witness for `classify_cases`: an individual kind tag classifies as
individual. -/
theorem classify_cases_witness :
    strContains (recInd.kind.getD "") "individual" = true ∧
    determine_entity_type recInd = "individual" :=
  ⟨rfl, (classify_cases recInd).1 rfl⟩

/-- C6, counterexample.  The kind-tag matching is case-sensitive: a record
whose kind is "CORPORATE-ENTITY" falls past both substring checks into the
individual fallback, while the lower-case variant of the same record
classifies as uk_company, so classification is not invariant under case
changes of the kind tag. -/
theorem classify_kind_case_sensitive_cex :
    lowerStr (recUpper.kind.getD "") = lowerStr (recLower.kind.getD "") ∧
    recUpper.country_of_residence = recLower.country_of_residence ∧
    determine_entity_type recUpper = "individual" ∧
    determine_entity_type recLower = "uk_company" ∧
    ¬ determine_entity_type recUpper = determine_entity_type recLower := by
  have h1 : determine_entity_type recUpper = "individual" := rfl
  have h2 : determine_entity_type recLower = "uk_company" := rfl
  refine ⟨rfl, rfl, h1, h2, ?_⟩
  rw [h1, h2]
  simp

/-- Two optional strings that differ only in letter case. -/
def optCaseVariant : Option String → Option String → Prop
  | none, none => True
  | some s, some t => lowerStr s = lowerStr t
  | _, _ => False

lemma str_empty_iff_data (s : String) : s = "" ↔ s.data = [] := by
  constructor
  · intro h
    rw [h]
  · intro h
    exact String.ext (h.trans rfl)

lemma lowerStr_empty_iff (s t : String) (h : lowerStr s = lowerStr t) :
    s = "" ↔ t = "" := by
  have hd : s.data.map Char.toLower = t.data.map Char.toLower := by
    have h2 := congrArg String.data h
    simpa [lowerStr] using h2
  rw [str_empty_iff_data, str_empty_iff_data]
  constructor
  · intro hs
    have h0 : t.data.map Char.toLower = [] := by
      rw [← hd]
      simp [hs]
    exact List.map_eq_nil_iff.mp h0
  · intro ht
    have h0 : s.data.map Char.toLower = [] := by
      rw [hd]
      simp [ht]
    exact List.map_eq_nil_iff.mp h0

lemma pyOr_caseVariant (a a' b b' : Option String)
    (ha : optCaseVariant a a') (hb : optCaseVariant b b') :
    optCaseVariant (pyOr a b) (pyOr a' b') := by
  cases a with
  | none =>
    cases a' with
    | none => simpa [pyOr] using hb
    | some t => exact absurd ha (by simp [optCaseVariant])
  | some s =>
    cases a' with
    | none => exact absurd ha (by simp [optCaseVariant])
    | some t =>
      have hlow : lowerStr s = lowerStr t := ha
      by_cases hs : s = ""
      · have ht : t = "" := (lowerStr_empty_iff s t hlow).mp hs
        simpa [pyOr, hs, ht] using hb
      · have ht : ¬ t = "" := fun hh => hs ((lowerStr_empty_iff s t hlow).mpr hh)
        simpa [pyOr, hs, ht] using ha

/-- C6, amended.  Classification is invariant under letter-case changes of
the country strings (both `country_of_residence` and the identification's
registered country are lower-cased before comparison), but not of the kind
tag, whose substring matching is case-sensitive
(`classify_kind_case_sensitive_cex`). -/
theorem classify_country_case_invariant
    (k nm : Option String) (ne : Option NameElements)
    (noc : Option (List String)) (ce reg ls : Option String)
    (co co' cr cr' : Option String)
    (hco : optCaseVariant co co') (hcr : optCaseVariant cr cr') :
    determine_entity_type ⟨k, nm, ne, co, noc, ce, some ⟨reg, cr⟩, ls⟩ =
      determine_entity_type ⟨k, nm, ne, co', noc, ce, some ⟨reg, cr'⟩, ls⟩ := by
  have hv := pyOr_caseVariant co co' cr cr' hco hcr
  by_cases h1 : strContains (k.getD "") "individual" = true
  · simp [determine_entity_type, h1]
  · by_cases h2 : (strContains (k.getD "") "corporate-entity" ||
        strContains (k.getD "") "legal-person") = true
    · cases hA : pyOr co cr with
      | none =>
        cases hB : pyOr co' cr' with
        | none => simp [determine_entity_type, h1, h2, hA, hB]
        | some t =>
          rw [hA, hB] at hv
          exact absurd hv (by simp [optCaseVariant])
      | some s =>
        cases hB : pyOr co' cr' with
        | none =>
          rw [hA, hB] at hv
          exact absurd hv (by simp [optCaseVariant])
        | some t =>
          rw [hA, hB] at hv
          have hlow : lowerStr s = lowerStr t := hv
          have hiff := lowerStr_empty_iff s t hlow
          by_cases hs : s ≠ "" ∧ lowerStr s ∈ ukCountries
          · have ht : t ≠ "" ∧ lowerStr t ∈ ukCountries :=
              ⟨fun hh => hs.1 (hiff.mpr hh), hlow ▸ hs.2⟩
            simp [determine_entity_type, h1, h2, hA, hB, hs, ht]
          · have ht : ¬ (t ≠ "" ∧ lowerStr t ∈ ukCountries) :=
              fun hh => hs ⟨fun h0 => hh.1 (hiff.mp h0), hlow ▸ hh.2⟩
            simp [determine_entity_type, h1, h2, hA, hB, hs, ht]
    · simp [determine_entity_type, h1, h2]

/-- Witness for `classify_country_case_invariant`: "ENGLAND" and "england"
classify alike. -/
theorem classify_country_case_invariant_witness :
    optCaseVariant (some "ENGLAND") (some "england") ∧
    determine_entity_type
        ⟨some "corporate-entity", some "U Ltd", none, some "ENGLAND", none,
          none, some ⟨none, none⟩, none⟩ =
      determine_entity_type
        ⟨some "corporate-entity", some "U Ltd", none, some "england", none,
          none, some ⟨none, none⟩, none⟩ :=
  ⟨rfl, classify_country_case_invariant (some "corporate-entity")
    (some "U Ltd") none none none none none (some "ENGLAND") (some "england")
    none none rfl trivial⟩

/-- C7, counterexample.  The skip test is `not psc.get("ceased_on") is None`
(`main.py` line 163): any present `ceased_on` key — even one holding the
empty string — excludes the record.  The claim expects a record whose
cessation marker is present-but-empty to produce a node; on `env7`, whose
only record has `ceased_on = ""`, no node is produced. -/
theorem ceased_empty_marker_cex :
    recCeasedEmpty.ceased_on = some "" ∧
    (ownership_response env7 "001" "Acme").1.children = [] ∧
    (ownership_response env7 "001" "Acme").2.1 = 1 :=
  ⟨rfl, rfl, rfl⟩

lemma buildChildren_length
    (bld : String → String → List String → List String →
      Option (PSCNode × List String))
    (vis e : List String) :
    ∀ pscs idx m, buildChildren bld vis e idx pscs = some m →
      m.length = pscs.length := by
  intro pscs
  induction pscs with
  | nil =>
    intro idx m h
    simp [buildChildren] at h
    simp [← h]
  | cons p rest ih =>
    intro idx m h
    rw [buildChildren] at h
    cases hp : processOne bld vis e idx p with
    | none => rw [hp] at h; exact absurd h (by simp)
    | some pair =>
      obtain ⟨node, e₁⟩ := pair
      rw [hp] at h
      cases hr : buildChildren bld vis e (idx + 1) rest with
      | none => rw [hr] at h; exact absurd h (by simp)
      | some m' =>
        rw [hr] at h
        simp at h
        rw [← h]
        simp [ih (idx + 1) m' hr]

/-- C7, amended.  A raw record produces a child node iff its `ceased_on`
key is absent: the loop behaves exactly as if run on the records whose
`ceased_on` is `none`, and the built node has one child per such record —
so a record with any present cessation marker (non-empty or empty) never
produces a node, and a record with the key absent always does. -/
theorem ceased_filtering :
    (∀ (bld : String → String → List String → List String →
        Option (PSCNode × List String)) (vis : List String)
        (pscs : List RawPSC) (acc : List PSCNode) (e : List String),
      processPscs bld vis pscs acc e =
        processPscs bld vis (pscs.filter (fun p => p.ceased_on = none)) acc e) ∧
    (∀ env c n v e, ¬ c ∈ v →
      (build env c n v e).1.children.length =
        ((get_company_pscs env c).filter (fun p => p.ceased_on = none)).length) := by
  constructor
  · intro bld vis pscs
    induction pscs with
    | nil => intro acc e; rfl
    | cons psc rest ih =>
      intro acc e
      cases hcs : psc.ceased_on with
      | some d =>
        have hf : (psc :: rest).filter (fun p => p.ceased_on = none) =
            rest.filter (fun p => p.ceased_on = none) := by
          simp [List.filter_cons, hcs]
        rw [hf, processPscs, if_pos (by simp [hcs])]
        exact ih acc e
      | none =>
        have hf : (psc :: rest).filter (fun p => p.ceased_on = none) =
            psc :: rest.filter (fun p => p.ceased_on = none) := by
          simp [List.filter_cons, hcs]
        rw [hf, processPscs, processPscs, if_neg (by simp [hcs]),
          if_neg (by simp [hcs])]
        cases hp : processOne bld vis e acc.length psc with
        | none => rfl
        | some pair =>
          obtain ⟨node, e₁⟩ := pair
          exact ih (acc ++ [node]) e₁
  · intro env c n v e hv
    have hb := buildFuel_eq_build_pair env c n v e
    rw [buildFuel_succ, if_neg hv] at hb
    cases hp : processPscs (buildFuel env (unvisitedCount env v)) (c :: v)
        (get_company_pscs env c) [] e with
    | none => rw [hp] at hb; exact absurd hb (by simp)
    | some pair =>
      obtain ⟨childs, e₁⟩ := pair
      rw [hp] at hb
      have herr : ∀ r n e₀ t e₁', buildFuel env (unvisitedCount env v) r n (c :: v) e₀ =
          some (t, e₁') → e₁' = e₀ :=
        fun r n e₀ t e₁' hh =>
          buildFuel_errors env (unvisitedCount env v) r n (c :: v) e₀ t e₁' hh
      obtain ⟨m, hm, hl, _⟩ := processPscs_eq_buildChildren
        (buildFuel env (unvisitedCount env v)) (c :: v) herr
        (get_company_pscs env c) [] e childs e₁ hp
      have hch : (build env c n v e).1.children = childs := by
        have h2 := Option.some.inj hb
        rw [← (congrArg Prod.fst h2)]
        rfl
      rw [hch, hl]
      simp only [List.nil_append, List.length_nil] at hm ⊢
      simp [buildChildren_length (buildFuel env (unvisitedCount env v))
        (c :: v) e _ 0 m hm]

/-- Witness for the second half of `ceased_filtering` on `env7`: the ceased
record is dropped, so the root has as many children as `env7` has
non-ceased records, namely zero. -/
theorem ceased_filtering_witness :
    ¬ "001" ∈ ([] : List String) ∧
    (build env7 "001" "Acme" [] []).1.children.length =
      ((get_company_pscs env7 "001").filter (fun p => p.ceased_on = none)).length :=
  ⟨by simp, ceased_filtering.2 env7 "001" "Acme" [] [] (by simp)⟩

/-- C8.  Leaf invariant: in every tree returned by `build`, a node whose
type is not `uk_company` has no children, and a node with children has
type `uk_company` and a resolved `company_number` — children are attached
only inside the `if psc_type == "uk_company"` branch after a registration
number was found (`main.py` lines 180-195), and the per-company root always
carries its own number. -/
theorem leaf_invariant (env : Env) (c n : String) (v e : List String)
    (path : List Nat) (nd : PSCNode)
    (h : nodeAt (build env c n v e).1 path = some nd) :
    (¬ nd.type = "uk_company" → nd.children = []) ∧
    (¬ nd.children = [] →
      nd.type = "uk_company" ∧ nd.company_number.isSome = true) := by
  have hall : allNodesB (fun x => x.children.isEmpty ||
      (x.type == "uk_company" && x.company_number.isSome))
      (build env c n v e).1 = true := by
    refine buildFuel_allNodes _ ?_ ?_ ?_ env (unvisitedCount env v + 1) c n v e
      (build env c n v e).1 (build env c n v e).2 (buildFuel_eq_build_pair env c n v e)
    · intro i nm ty cor noc
      simp [PSCNode.children]
    · intro i nm reg cor noc childs
      simp [PSCNode.type, PSCNode.company_number]
    · intro c0 n0
      simp [PSCNode.children]
  have hP := allNodesB_nodeAt _ path (build env c n v e).1 hall nd h
  rw [Bool.or_eq_true] at hP
  rcases hP with hemp | hrest
  · have hch : nd.children = [] := by
      cases hcc : nd.children with
      | nil => rfl
      | cons a l => rw [hcc] at hemp; simp at hemp
    exact ⟨fun _ => hch, fun hc => absurd hch hc⟩
  · rw [Bool.and_eq_true] at hrest
    have hty : nd.type = "uk_company" := by
      have h1 := hrest.1
      simpa using h1
    exact ⟨fun hh => absurd hty hh, fun _ => ⟨hty, hrest.2⟩⟩

/-- Witness for `leaf_invariant`: the individual node at path `[0, 0, 0]`
of the diamond tree. -/
theorem leaf_invariant_witness :
    (¬ (PSCNode.mk "link-ind" "Ind Guy" "individual" none (some "England")
        [] [] true none).type = "uk_company" →
      (PSCNode.mk "link-ind" "Ind Guy" "individual" none (some "England")
        [] [] true none).children = []) ∧
    (¬ (PSCNode.mk "link-ind" "Ind Guy" "individual" none (some "England")
        [] [] true none).children = [] →
      (PSCNode.mk "link-ind" "Ind Guy" "individual" none (some "England")
        [] [] true none).type = "uk_company" ∧
      (PSCNode.mk "link-ind" "Ind Guy" "individual" none (some "England")
        [] [] true none).company_number.isSome = true) :=
  leaf_invariant envD "R" "Root" [] [] [0, 0, 0]
    (PSCNode.mk "link-ind" "Ind Guy" "individual" none (some "England")
      [] [] true none) rfl

/-- C9, counterexample.  A record with no `name` key and no `name_elements`
key yields the display name `"" + " " + ""`, which strips to the empty
string: the node built from `recNoName` has `name = ""`, so node names are
not always non-empty after trimming. -/
theorem empty_name_cex :
    recNoName.name = none ∧
    recNoName.name_elements = none ∧
    (nodeAt (ownership_response env9 "001" "Acme").1 [0]).map PSCNode.name =
      some "" ∧
    (nodeAt (ownership_response env9 "001" "Acme").1 [0]).map
      (fun nd => pyStrip nd.name) = some "" :=
  ⟨rfl, rfl, rfl, rfl⟩

/-- C9, amended.  Every child node's name is the whitespace-stripped display
name derived from its record — the direct `name` field when present and
non-empty, else forename + " " + surname from the name elements; this value
is empty when the record lacks both a direct name and non-blank name
elements, so node names are not guaranteed non-empty. -/
theorem node_name_from_record
    (bld : String → String → List String → List String →
      Option (PSCNode × List String))
    (vis e : List String) (idx : Nat) (psc : RawPSC)
    (node : PSCNode) (e' : List String)
    (h : processOne bld vis e idx psc = some (node, e')) :
    node.name = pyStrip (pscDisplayName psc) := by
  by_cases ht : determine_entity_type psc = "uk_company"
  · cases hr : pyTruthy ((psc.identification.getD ⟨none, none⟩).registration_number) with
    | none =>
      simp [processOne, ht, hr] at h
      rw [← h.1]
      rfl
    | some reg =>
      cases hc : bld reg (pyStrip (pscDisplayName psc)) vis e with
      | none => simp [processOne, ht, hr, hc] at h
      | some pair =>
        obtain ⟨child, e₁⟩ := pair
        simp [processOne, ht, hr, hc] at h
        rw [← h.1]
        rfl
  · simp [processOne, ht] at h
    rw [← h.1]
    rfl

/-- Witness for `node_name_from_record` on the nameless record. -/
theorem node_name_from_record_witness :
    (PSCNode.mk "link-anon" "" "individual" none none [] [] true none).name =
      pyStrip (pscDisplayName recNoName) :=
  node_name_from_record (fun _ _ _ _ => none) ["001"] [] 0 recNoName
    (PSCNode.mk "link-anon" "" "individual" none none [] [] true none) [] rfl

/-- C10.  Every node of every tree returned by `build` has
`is_active = true`: each of the three node-construction sites leaves the
pydantic default `is_active=True` untouched, and ceased records are
filtered out before any node is created. -/
theorem all_nodes_active (env : Env) (c n : String) (v e : List String)
    (path : List Nat) (nd : PSCNode)
    (h : nodeAt (build env c n v e).1 path = some nd) :
    nd.is_active = true := by
  have hall : allNodesB (fun x => x.is_active) (build env c n v e).1 = true := by
    refine buildFuel_allNodes _ ?_ ?_ ?_ env (unvisitedCount env v + 1) c n v e
      (build env c n v e).1 (build env c n v e).2 (buildFuel_eq_build_pair env c n v e)
    · intro i nm ty cor noc
      rfl
    · intro i nm reg cor noc childs
      rfl
    · intro c0 n0
      rfl
  exact allNodesB_nodeAt _ path (build env c n v e).1 hall nd h

/-- Witness for `all_nodes_active`: the node built from the nameless
record. -/
theorem all_nodes_active_witness :
    (PSCNode.mk "link-anon" "" "individual" none none [] [] true none).is_active
      = true :=
  all_nodes_active env9 "001" "Acme" [] [] [0]
    (PSCNode.mk "link-anon" "" "individual" none none [] [] true none) rfl

end PSCBack
